import Mathlib

/-!
Verification of the variational-dropout LSTM in `components.py`
(`LSTMCell` and the packed-sequence `LSTM` layer).

Tensors are shallowly embedded as rational-valued nested lists:
a vector is a `List ℚ`, a batched 2-D tensor is a `List (List ℚ)`
(outer list = batch rows).  The external activation functions
(`F.sigmoid`, `F.tanh`) and the Bernoulli sampler (`torch.bernoulli`)
are abstract parameters: only their call sites are part of this core.
-/

namespace Components

/-- A vector (one tensor row). -/
abbrev Vec := List ℚ

/-- A 2-D tensor: a list of rows. -/
abbrev Mat := List Vec

/-- Dot product of two vectors (`zipWith` truncates, as shapes are a
precondition in the source). -/
def dot (u v : Vec) : ℚ := (List.zipWith (· * ·) u v).sum

/-- `W @ v` for a matrix given as a list of rows. -/
def matVec (W : Mat) (v : Vec) : Vec := W.map (fun r => dot r v)

/-- `F.linear(x, W, b)`: per batch row, `W @ row + b`. -/
def linear (x : Mat) (W : Mat) (b : Vec) : Mat :=
  x.map (fun v => List.zipWith (· + ·) (matVec W v) b)

/-- `F.linear(x, W)` with no bias. -/
def linearNoBias (x : Mat) (W : Mat) : Mat :=
  x.map (fun v => matVec W v)

/-- Element-wise product of two batched tensors. -/
def ewMul (a b : Mat) : Mat := List.zipWith (List.zipWith (· * ·)) a b

/-- Element-wise sum of two batched tensors. -/
def ewAdd (a b : Mat) : Mat := List.zipWith (List.zipWith (· + ·)) a b

/-- Apply a scalar function element-wise (`F.sigmoid`, `F.tanh`). -/
def ewMap (f : ℚ → ℚ) (a : Mat) : Mat := a.map (List.map f)

/-- The value held in `_input_dropout_mask` / `_h_dropout_mask`:
either a Python list of 4 scalar floats (the inference branches of
`set_dropout_masks`) or a `4 × batch × feature` tensor (the training
branch). -/
inductive DropoutMask where
  | scalars (vals : List ℚ)
  | tensor (t : List Mat)
deriving DecidableEq

/-- What `get_mask_slice` hands to the element-wise multiplication:
a broadcast scalar or a 2-D slice. -/
inductive MaskSlice where
  | scalar (c : ℚ)
  | rows (m : Mat)
deriving DecidableEq

/-- `LSTMCell.forward.get_mask_slice(mask, idx)` where `b` is
`input.size(0)`: a scalar from a Python list, or `mask[idx][-b:]`
(the trailing `b` rows) from a tensor mask. -/
def get_mask_slice (mask : DropoutMask) (idx : ℕ) (b : ℕ) : MaskSlice :=
  match mask with
  | .scalars vals => .scalar (vals.getD idx 0)
  | .tensor t =>
      let m := t.getD idx []
      .rows (m.drop (m.length - b))

/-- `x * slice`: broadcast scalar multiplication or element-wise product. -/
def applyMask (x : Mat) (s : MaskSlice) : Mat :=
  match s with
  | .scalar c => x.map (List.map (· * c))
  | .rows m => ewMul x m

/-- The external Bernoulli sampler behind `torch.bernoulli(torch.Tensor(g, b, f).fill_(p))`:
arguments are the fill probability and the three tensor dimensions. -/
abbrev Rng := ℚ → ℕ → ℕ → ℕ → List Mat

/-- The state of one `LSTMCell` module: configured sizes, dropout
probability, the eight weight matrices and four biases, the lazily
populated dropout-mask fields, and the `nn.Module` training flag. -/
structure LSTMCell where
  input_size : ℕ
  hidden_size : ℕ
  dropout : ℚ
  W_i : Mat
  U_i : Mat
  b_i : Vec
  W_f : Mat
  U_f : Mat
  b_f : Vec
  W_c : Mat
  U_c : Mat
  b_c : Vec
  W_o : Mat
  U_o : Mat
  b_o : Vec
  input_dropout_mask : Option DropoutMask
  h_dropout_mask : Option DropoutMask
  training : Bool
deriving DecidableEq

/-- The externally supplied results of the eight `init.orthogonal`
draws performed by `reset_parameters` (random-number generation is an
external collaborator; only where each draw lands is modelled). -/
structure OrthogonalDraw where
  W_i : Mat
  U_i : Mat
  W_f : Mat
  U_f : Mat
  W_c : Mat
  U_c : Mat
  W_o : Mat
  U_o : Mat
deriving DecidableEq

/-- `LSTMCell.__init__` followed by `reset_parameters`: stores the
sizes and dropout probability, installs the orthogonal weight draws,
fills the forget-gate bias with 1 and the other biases with 0, and
leaves both dropout-mask fields `None`.  The source performs no
validation of any argument. -/
def LSTMCell.init (input_size hidden_size : ℕ) (dropout : ℚ)
    (draw : OrthogonalDraw) (training : Bool) : LSTMCell :=
  { input_size := input_size
    hidden_size := hidden_size
    dropout := dropout
    W_i := draw.W_i, U_i := draw.U_i, b_i := List.replicate hidden_size 0
    W_f := draw.W_f, U_f := draw.U_f, b_f := List.replicate hidden_size 1
    W_c := draw.W_c, U_c := draw.U_c, b_c := List.replicate hidden_size 0
    W_o := draw.W_o, U_o := draw.U_o, b_o := List.replicate hidden_size 0
    input_dropout_mask := none
    h_dropout_mask := none
    training := training }

/-- The construction surface of the cell viewed as a fallible
operation: `__init__` contains no validation and no `raise`, so the
embedding always returns `.ok`. -/
inductive ConfigurationError where
  | invalid
deriving DecidableEq

/-- `LSTMCell(input_size, hidden_size, dropout)` as a fallible
constructor: the source never raises, so this is always `.ok` of
`LSTMCell.init`. -/
def LSTMCell.configure (input_size hidden_size : ℕ) (dropout : ℚ)
    (draw : OrthogonalDraw) (training : Bool) :
    Except ConfigurationError LSTMCell :=
  .ok (LSTMCell.init input_size hidden_size dropout draw training)

/-- `LSTMCell.set_dropout_masks(batch_size)`.  With a nonzero dropout
probability: in training mode both masks become freshly sampled
`4 × batch_size × feature` Bernoulli(1 - dropout) tensors; outside
training both become the Python list `[1 - dropout] * 4`.  With zero
dropout both become `[1.] * 4` regardless of mode. -/
def LSTMCell.set_dropout_masks (cell : LSTMCell) (batch_size : ℕ)
    (rng : Rng) : LSTMCell :=
  if cell.dropout ≠ 0 then
    if cell.training then
      { cell with
        input_dropout_mask :=
          some (.tensor (rng (1 - cell.dropout) 4 batch_size cell.input_size))
        h_dropout_mask :=
          some (.tensor (rng (1 - cell.dropout) 4 batch_size cell.hidden_size)) }
    else
      { cell with
        input_dropout_mask := some (.scalars (List.replicate 4 (1 - cell.dropout)))
        h_dropout_mask := some (.scalars (List.replicate 4 (1 - cell.dropout))) }
  else
    { cell with
      input_dropout_mask := some (.scalars (List.replicate 4 1))
      h_dropout_mask := some (.scalars (List.replicate 4 1)) }

/-- The body of `LSTMCell.forward` after the lazy mask check: the four
recurrent projections (no bias), the four masked input projections
(with bias), and the gate recurrence.  `σ` and `τ` are the external
`F.sigmoid` and `F.tanh`.  The mask fields are read with a default
that is unreachable whenever the lazy initialization has run. -/
def lstmStep (cell : LSTMCell) (σ τ : ℚ → ℚ) (input : Mat)
    (hidden_state : Mat × Mat) : Mat × Mat :=
  let h_tm1 := hidden_state.1
  let c_tm1 := hidden_state.2
  let imask := cell.input_dropout_mask.getD (.scalars (List.replicate 4 1))
  let hmask := cell.h_dropout_mask.getD (.scalars (List.replicate 4 1))
  let b := input.length
  let hi_t := linearNoBias (applyMask h_tm1 (get_mask_slice hmask 0 b)) cell.U_i
  let hf_t := linearNoBias (applyMask h_tm1 (get_mask_slice hmask 1 b)) cell.U_f
  let hc_t := linearNoBias (applyMask h_tm1 (get_mask_slice hmask 2 b)) cell.U_c
  let ho_t := linearNoBias (applyMask h_tm1 (get_mask_slice hmask 3 b)) cell.U_o
  let xi_t := linear (applyMask input (get_mask_slice imask 0 b)) cell.W_i cell.b_i
  let xf_t := linear (applyMask input (get_mask_slice imask 1 b)) cell.W_f cell.b_f
  let xc_t := linear (applyMask input (get_mask_slice imask 2 b)) cell.W_c cell.b_c
  let xo_t := linear (applyMask input (get_mask_slice imask 3 b)) cell.W_o cell.b_o
  let i_t := ewMap σ (ewAdd xi_t hi_t)
  let f_t := ewMap σ (ewAdd xf_t hf_t)
  let c_t := ewAdd (ewMul f_t c_tm1) (ewMul i_t (ewMap τ (ewAdd xc_t hc_t)))
  let o_t := ewMap σ (ewAdd xo_t ho_t)
  let h_t := ewMul o_t (ewMap τ c_t)
  (h_t, c_t)

/-- `LSTMCell.forward(input, hidden_state)`: if `_input_dropout_mask`
is `None`, first run `set_dropout_masks(input.size(0))`; then the gate
recurrence.  Returns the `(h_t, c_t)` pair together with the cell
(whose mask fields the lazy branch may have populated). -/
def LSTMCell.forward (cell : LSTMCell) (rng : Rng) (σ τ : ℚ → ℚ)
    (input : Mat) (hidden_state : Mat × Mat) : (Mat × Mat) × LSTMCell :=
  let c2 := if cell.input_dropout_mask.isNone
            then cell.set_dropout_masks input.length rng else cell
  (lstmStep c2 σ τ input hidden_state, c2)

/-- A packed batch of variable-length sequences: the flat buffer of
time-major row slices and the per-step active-batch counts. -/
structure PackedSeq where
  data : Mat
  batch_sizes : List ℕ
deriving DecidableEq

/-- The argument of `LSTM.forward`: either a `PackedSequence` or a
plain (padded/unpacked) tensor. -/
inductive LSTMInput where
  | packed (p : PackedSeq)
  | unpacked (t : Mat)
deriving DecidableEq

/-- The only error the layer's forward raises: `NotImplementedError`
on non-packed input. -/
inductive LSTMError where
  | notImplemented
deriving DecidableEq

/-- Modelled from the spec: one step of the packed-sequence forward
stepping protocol (§4.2 step 4) that the external
`variable_recurrent_factory` collaborator implements.  Walking the
active-batch counts in time order: at a step of width `b`, the next
`b` rows of the flat buffer are the step input; when the width shrank
by `dec`, the trailing `dec` rows of the running (hidden, cell) state
are set aside (those sequences are finished) and the leading rows are
advanced through the cell; the step's hidden output is accumulated.
Returns the set-aside state pairs (final state first, earlier
finishers last) and the per-step outputs in time order. -/
def varRecGo (step : Mat → Mat × Mat → Mat × Mat) :
    List ℕ → Mat → ℕ → Mat × Mat → List (Mat × Mat) × List Mat
  | [], _, _, hc => ([hc], [])
  | b :: bs, data, lastB, hc =>
      let dec := lastB - b
      let hc2 := if 0 < dec
                 then (hc.1.take (hc.1.length - dec), hc.2.take (hc.2.length - dec))
                 else hc
      let hc3 := step (data.take b) hc2
      let rest := varRecGo step bs (data.drop b) b hc3
      (if 0 < dec
       then rest.1 ++ [(hc.1.drop (hc.1.length - dec), hc.2.drop (hc.2.length - dec))]
       else rest.1,
       hc3.1 :: rest.2)

/-- Modelled from the spec: the forward-direction packed recurrence
(§4.2 steps 4 and 7–8).  The final (hidden, cell) pair is reassembled
from the set-aside slices so every batch element's state is the one
captured when its sequence ended; the output is the concatenation of
the per-step output slices. -/
def VariableRecurrent (step : Mat → Mat × Mat → Mat × Mat)
    (batch_sizes : List ℕ) (data : Mat) (hc : Mat × Mat) :
    (Mat × Mat) × Mat :=
  let r := varRecGo step batch_sizes data (batch_sizes.headD 0) hc
  (((r.1.map Prod.fst).flatten, (r.1.map Prod.snd).flatten), r.2.flatten)

/-- Modelled from the spec: cut the flat packed buffer into its
per-time-step row slices using the active-batch counts (§3). -/
def splitChunks : List ℕ → Mat → List Mat
  | [], _ => []
  | b :: bs, data => data.take b :: splitChunks bs (data.drop b)

/-- Modelled from the spec: the reverse-direction stepping loop (§4.2
step 5), walking time steps in decreasing order over the reversed
count/chunk lists.  The running state starts at the width of the last
(narrowest) step and grows toward earlier steps by appending the
corresponding rows of the initial state; outputs are accumulated back
into increasing time order. -/
def varRecRevGo (step : Mat → Mat × Mat → Mat × Mat) (initH initC : Mat) :
    List ℕ → List Mat → ℕ → Mat × Mat → (Mat × Mat) × List Mat
  | [], _, _, hc => (hc, [])
  | b :: bs, chunks, lastB, hc =>
      let hc2 := if 0 < b - lastB
                 then (hc.1 ++ ((initH.drop lastB).take (b - lastB)),
                       hc.2 ++ ((initC.drop lastB).take (b - lastB)))
                 else hc
      let hc3 := step (chunks.headD []) hc2
      let rest := varRecRevGo step initH initC bs chunks.tail b hc3
      (rest.1, rest.2 ++ [hc3.1])

/-- Modelled from the spec: the reverse-direction packed recurrence
(§4.2 steps 5 and 7–8): iterate the time steps in decreasing order,
then emit the per-step outputs in increasing time order; the final
state is the running state after the earliest (widest) step. -/
def VariableRecurrentReverse (step : Mat → Mat × Mat → Mat × Mat)
    (batch_sizes : List ℕ) (data : Mat) (hc : Mat × Mat) :
    (Mat × Mat) × Mat :=
  let rbs := batch_sizes.reverse
  let rchunks := (splitChunks batch_sizes data).reverse
  let lastB := rbs.headD 0
  let r := varRecRevGo step hc.1 hc.2 rbs rchunks lastB
             (hc.1.take lastB, hc.2.take lastB)
  (r.1, r.2.flatten)

/-- The `LSTM` layer: configuration, the forward-direction cell, the
optional reverse-direction cell, and the module training flag. -/
structure LSTM where
  input_size : ℕ
  hidden_size : ℕ
  bidirectional : Bool
  dropout : ℚ
  cell : LSTMCell
  cell_reverse : Option LSTMCell
  training : Bool
deriving DecidableEq

/-- `LSTM.__init__`: build one cell per direction with the layer's
sizes and dropout (`drawF` and `drawR` are the orthogonal draws the
two constructions consume). -/
def LSTM.init (input_size hidden_size : ℕ) (bidirectional : Bool)
    (dropout : ℚ) (drawF drawR : OrthogonalDraw) (training : Bool) : LSTM :=
  { input_size := input_size
    hidden_size := hidden_size
    bidirectional := bidirectional
    dropout := dropout
    cell := LSTMCell.init input_size hidden_size dropout drawF training
    cell_reverse :=
      if bidirectional
      then some (LSTMCell.init input_size hidden_size dropout drawR training)
      else none
    training := training }

/-- The successful branch of `LSTM.forward` on a packed input:
refresh every cell's masks at `max_batch_size = batch_sizes[0]`,
synthesize a zero initial state if none is given, run the
per-direction packed recurrences (the external
`variable_recurrent_factory`/`StackedRNN` collaborators, modelled from
the spec above), concatenate direction outputs along the feature axis,
and repack with the original counts.  Also returns the layer with the
refreshed cells. -/
def LSTM.forwardPacked (l : LSTM) (rng : Rng) (σ τ : ℚ → ℚ)
    (p : PackedSeq) (hidden_state : Option (List Mat × List Mat)) :
    (PackedSeq × (List Mat × List Mat)) × LSTM :=
  let batch_sizes := p.batch_sizes
  let data := p.data
  let max_batch_size := batch_sizes.headD 0
  let cell := l.cell.set_dropout_masks max_batch_size rng
  let cell_reverse := l.cell_reverse.map
      (fun c => c.set_dropout_masks max_batch_size rng)
  let num_directions := if l.bidirectional then 2 else 1
  let hx := List.replicate num_directions
      (List.replicate max_batch_size (List.replicate l.hidden_size (0 : ℚ)))
  let hc0 := hidden_state.getD (hx, hx)
  let stepF := fun x hcs => (cell.forward rng σ τ x hcs).1
  let resF := VariableRecurrent stepF batch_sizes data
      (hc0.1.headD [], hc0.2.headD [])
  if l.bidirectional then
    let cellR := cell_reverse.getD cell
    let stepR := fun x hcs => (cellR.forward rng σ τ x hcs).1
    let resR := VariableRecurrentReverse stepR batch_sizes data
        (hc0.1.getD 1 [], hc0.2.getD 1 [])
    let out := List.zipWith (fun r1 r2 => r1 ++ r2) resF.2 resR.2
    ((⟨out, batch_sizes⟩, ([resF.1.1, resR.1.1], [resF.1.2, resR.1.2])),
     { l with cell := cell, cell_reverse := some cellR })
  else
    ((⟨resF.2, batch_sizes⟩, ([resF.1.1], [resF.1.2])),
     { l with cell := cell })

/-- `LSTM.forward(input, hidden_state)`: a non-packed input raises
`NotImplementedError` before anything else runs; a packed input takes
the successful branch. -/
def LSTM.forward (l : LSTM) (rng : Rng) (σ τ : ℚ → ℚ)
    (input : LSTMInput) (hidden_state : Option (List Mat × List Mat)) :
    Except LSTMError ((PackedSeq × (List Mat × List Mat)) × LSTM) :=
  match input with
  | .unpacked _ => .error .notImplemented
  | .packed p => .ok (l.forwardPacked rng σ τ p hidden_state)

/-! ### Shape predicates used to state the output contract -/

/-- Every row of `m` has length `H` (a batched tensor of feature
width `H`). -/
def rowsWidth (H : ℕ) (m : Mat) : Prop := ∀ r ∈ m, r.length = H

/-- A tensor dropout mask can serve any active batch up to `n`: each
of its 4 gate slices has at least `n` rows.  Scalar masks broadcast
and serve any batch. -/
def maskBatchGE : DropoutMask → ℕ → Prop
  | .scalars _, _ => True
  | .tensor t, n => ∀ g, g < 4 → n ≤ (t.getD g []).length

/-- The step function maps a step input of any width up to `B0`,
paired with equally wide hidden/cell states whose cell rows have
width `H`, to hidden/cell outputs of the same width whose rows have
width `H`. -/
def StepShape (step : Mat → Mat × Mat → Mat × Mat) (H B0 : ℕ) : Prop :=
  ∀ x h c, x.length ≤ B0 → h.length = x.length → c.length = x.length →
    rowsWidth H c →
    (step x (h, c)).1.length = x.length ∧ (step x (h, c)).2.length = x.length ∧
    rowsWidth H (step x (h, c)).1 ∧ rowsWidth H (step x (h, c)).2

/-- The external Bernoulli sampler is shape-correct: asked for a
`4 × b × f` tensor it returns 4 matrices of `b` rows each. -/
def rngOK (rng : Rng) : Prop :=
  ∀ pr b f, (rng pr 4 b f).length = 4 ∧ ∀ m ∈ rng pr 4 b f, m.length = b

/-- The twelve weight shapes of one cell for hidden size `H`: every
projection matrix has `H` rows and every bias has `H` entries. -/
def LSTMCell.weightsShaped (cell : LSTMCell) (H : ℕ) : Prop :=
  cell.W_i.length = H ∧ cell.U_i.length = H ∧ cell.b_i.length = H ∧
  cell.W_f.length = H ∧ cell.U_f.length = H ∧ cell.b_f.length = H ∧
  cell.W_c.length = H ∧ cell.U_c.length = H ∧ cell.b_c.length = H ∧
  cell.W_o.length = H ∧ cell.U_o.length = H ∧ cell.b_o.length = H

/-- A well-formed packed batch: the flat buffer holds at least the
rows the counts promise, and the active-batch counts are
non-increasing (§3). -/
def PackedSeq.wf (p : PackedSeq) : Prop :=
  p.batch_sizes.sum ≤ p.data.length ∧
  List.Chain' (fun a b => b ≤ a) p.batch_sizes

/-- A user-supplied initial state fit for `B0` rows, hidden width `H`
and `nd` directions: the per-direction hidden and cell matrices the
stepping reads have `B0` rows, and the cell rows have width `H`. -/
def stateOK (B0 H nd : ℕ) (s : List Mat × List Mat) : Prop :=
  (s.1.headD []).length = B0 ∧ (s.2.headD []).length = B0 ∧
  rowsWidth H (s.2.headD []) ∧
  (nd = 2 → (s.1.getD 1 []).length = B0 ∧ (s.2.getD 1 []).length = B0 ∧
    rowsWidth H (s.2.getD 1 []))

/-- The mask row that the still-active sample `j` receives from gate
`g` of a tensor mask when the step's active batch is `b`: under the
descending-length packing of §3, the still-active samples at a step of
width `b` are samples `0 .. b-1` of the full batch, and sample `j`
reads row `j` of the slice `get_mask_slice` returns. -/
def appliedMaskRow (t : List Mat) (g b j : ℕ) : Vec :=
  match get_mask_slice (.tensor t) g b with
  | .scalar _ => []
  | .rows m => m.getD j []

/-! ### Concrete fixtures used by claim witnesses -/

/-- A concrete orthogonal-draw result for 1×1 weight matrices. -/
def unitDraw : OrthogonalDraw :=
  ⟨[[1]], [[1]], [[1]], [[1]], [[1]], [[1]], [[1]], [[1]]⟩

/-- A trivial external sampler (never consulted by the inference-mode
fixtures below). -/
def rng0 : Rng := fun _ _ _ _ => []

/-- A 1×1 cell with both dropout masks populated with the scalar
lists the inference branch of `set_dropout_masks` produces. -/
def c1Cell : LSTMCell :=
  { LSTMCell.init 1 1 0 unitDraw false with
    input_dropout_mask := some (.scalars [1, 1, 1, 1])
    h_dropout_mask := some (.scalars [1, 1, 1, 1]) }

/-- A 1×1 inference-mode cell with dropout probability 1/2 and
untouched (lazy) mask fields. -/
def c6Cell : LSTMCell := LSTMCell.init 1 1 (1/2) unitDraw false

/-- A 1×1 training-mode cell with dropout probability 1/2 and
untouched (lazy) mask fields. -/
def c10Cell : LSTMCell := LSTMCell.init 1 1 (1/2) unitDraw true

/-- A unidirectional inference-mode layer with dropout 0. -/
def c9Layer : LSTM := LSTM.init 1 1 false 0 unitDraw unitDraw false

/-- A second unidirectional inference-mode layer with dropout 0. -/
def c7Layer : LSTM := LSTM.init 1 1 false 0 unitDraw unitDraw false

/-- A shape-correct sampler that always returns all-ones tensors of
the requested dimensions. -/
def rngConst : Rng :=
  fun _ _ b f => List.replicate 4 (List.replicate b (List.replicate f 1))

/-! ### C1 -/

/-- C1: for every input, previous hidden state and previous cell state,
`LSTMCell.forward` computes, for each gate g ∈ {i, f, c, o}, `x_g` as
the masked input projected by `W_g` plus bias `b_g` and `h_g` as the
masked previous hidden state projected by `U_g` with no bias, and
returns `hidden_next = sigmoid(x_o + h_o) ⊙ tanh(cell_next)` and
`cell_next = sigmoid(x_f + h_f) ⊙ cell_prev + sigmoid(x_i + h_i) ⊙
tanh(x_c + h_c)`, element-wise (the cell itself is untouched, its
masks being present). -/
theorem C1_cell_forward_gate_recurrence (cell : LSTMCell) (rng : Rng)
    (σ τ : ℚ → ℚ) (input h_tm1 c_tm1 : Mat) (mi mh : DropoutMask)
    (hmi : cell.input_dropout_mask = some mi)
    (hmh : cell.h_dropout_mask = some mh) :
    cell.forward rng σ τ input (h_tm1, c_tm1) =
      (let b := input.length
       let x_i := linear (applyMask input (get_mask_slice mi 0 b)) cell.W_i cell.b_i
       let x_f := linear (applyMask input (get_mask_slice mi 1 b)) cell.W_f cell.b_f
       let x_c := linear (applyMask input (get_mask_slice mi 2 b)) cell.W_c cell.b_c
       let x_o := linear (applyMask input (get_mask_slice mi 3 b)) cell.W_o cell.b_o
       let h_i := linearNoBias (applyMask h_tm1 (get_mask_slice mh 0 b)) cell.U_i
       let h_f := linearNoBias (applyMask h_tm1 (get_mask_slice mh 1 b)) cell.U_f
       let h_c := linearNoBias (applyMask h_tm1 (get_mask_slice mh 2 b)) cell.U_c
       let h_o := linearNoBias (applyMask h_tm1 (get_mask_slice mh 3 b)) cell.U_o
       let cell_next := ewAdd (ewMul (ewMap σ (ewAdd x_f h_f)) c_tm1)
                              (ewMul (ewMap σ (ewAdd x_i h_i)) (ewMap τ (ewAdd x_c h_c)))
       let hidden_next := ewMul (ewMap σ (ewAdd x_o h_o)) (ewMap τ cell_next)
       ((hidden_next, cell_next), cell)) := by
  simp [LSTMCell.forward, lstmStep, hmi, hmh]

/-- Witness for C1 at a concrete 1×1 cell: with identity activations,
unit weights, forget bias 1, input 2, previous hidden 3, previous cell
4, the step returns hidden 245 and cell 49. -/
theorem C1_witness :
    c1Cell.input_dropout_mask = some (.scalars [1, 1, 1, 1]) ∧
    c1Cell.h_dropout_mask = some (.scalars [1, 1, 1, 1]) ∧
    c1Cell.forward rng0 id id [[2]] ([[3]], [[4]]) = (([[245]], [[49]]), c1Cell) := by
  refine ⟨rfl, rfl, ?_⟩
  have h := C1_cell_forward_gate_recurrence c1Cell rng0 id id [[2]] [[3]] [[4]]
    (.scalars [1, 1, 1, 1]) (.scalars [1, 1, 1, 1]) rfl rfl
  refine h.trans ?_
  norm_num [linear, linearNoBias, applyMask, get_mask_slice, matVec, dot,
    ewMul, ewAdd, ewMap, c1Cell, LSTMCell.init, unitDraw]

/-! ### C2 -/

/-- Counterexample to C2: a single-gate mask of batch size 2 whose two
rows are `[0]` and `[1]`.  At full width sample 0 is masked by its own
row `[0]`, but when the active batch shrinks to 1 the trailing-rows
slice hands the still-active sample 0 the row `[1]` of the finished
sample — per-sample mask identity is not preserved. -/
theorem C2_counterexample :
    appliedMaskRow [[[0], [1]]] 0 2 0 = [(0 : ℚ)] ∧
    appliedMaskRow [[[0], [1]]] 0 1 0 = [(1 : ℚ)] := by decide

/-- C2 (amended): the cell applies the trailing `active_batch` rows of
each gate's mask, which hands still-active sample `j` (one of the first
`active_batch` samples under descending-length packing) the mask row
`mask_batch - active_batch + j` — its own row only when the active
batch equals the mask's batch size, so per-sample mask identity is not
preserved when the batch shrinks. -/
theorem C2_amended_trailing_slice (t : List Mat) (g b j : ℕ)
    (hb : b ≤ (t.getD g []).length) (hj : j < b) :
    appliedMaskRow t g b j =
      (t.getD g []).getD ((t.getD g []).length - b + j) [] := by
  simp only [appliedMaskRow, get_mask_slice]
  simp [List.getD_eq_getElem?_getD, List.getElem?_drop]

/-- Witness for C2 (amended): batch-2 mask with rows `[5]` and `[7]`,
active batch 1; the still-active sample 0 receives row `2 - 1 + 0 = 1`,
namely `[7]`. -/
theorem C2_amended_witness :
    1 ≤ ([[(5 : ℚ)], [7]] : Mat).length ∧ 0 < 1 ∧
    appliedMaskRow [[[(5 : ℚ)], [7]]] 0 1 0 = [(7 : ℚ)] := by
  refine ⟨by decide, by decide, ?_⟩
  have h := C2_amended_trailing_slice [[[(5 : ℚ)], [7]]] 0 1 0 (by decide) (by decide)
  exact h.trans (by decide)

/-! ### C3 -/

/-- C3: a call to `LSTM.forward` whose input is not a packed sequence
fails immediately with the not-implemented error, producing no output
and no updated layer state (the error branch runs before the mask
refresh and the stepping loop). -/
theorem C3_unpacked_input_rejected (l : LSTM) (rng : Rng) (σ τ : ℚ → ℚ)
    (t : Mat) (hs : Option (List Mat × List Mat)) :
    l.forward rng σ τ (.unpacked t) hs = .error .notImplemented := rfl

/-! ### C4 -/

/-- Counterexample to C4: the dropout probability 3/2 lies outside
[0, 1), yet construction succeeds — `LSTMCell.__init__` performs no
validation and never raises. -/
theorem C4_counterexample :
    (1 : ℚ) ≤ 3 / 2 ∧
    (LSTMCell.configure 3 5 (3 / 2) unitDraw true).isOk = true := by
  exact ⟨by norm_num, rfl⟩

/-- C4 (amended): construction of a cell performs no parameter
validation at all: it succeeds for every pair of sizes and every
dropout probability, including values outside [0, 1). -/
theorem C4_amended_no_validation (input_size hidden_size : ℕ) (d : ℚ)
    (draw : OrthogonalDraw) (tr : Bool) :
    (LSTMCell.configure input_size hidden_size d draw tr).isOk = true := rfl

/-! ### C5 -/

/-- C5: immediately after construction the forget-gate bias vector has
every entry exactly 1 and the input-gate, cell-candidate and
output-gate bias vectors have every entry exactly 0. -/
theorem C5_bias_initialization (input_size hidden_size : ℕ) (d : ℚ)
    (draw : OrthogonalDraw) (tr : Bool) :
    (LSTMCell.init input_size hidden_size d draw tr).b_f
        = List.replicate hidden_size 1 ∧
    (LSTMCell.init input_size hidden_size d draw tr).b_i
        = List.replicate hidden_size 0 ∧
    (LSTMCell.init input_size hidden_size d draw tr).b_c
        = List.replicate hidden_size 0 ∧
    (LSTMCell.init input_size hidden_size d draw tr).b_o
        = List.replicate hidden_size 0 :=
  ⟨rfl, rfl, rfl, rfl⟩

/-! ### C6 -/

/-- C6: for every batch size, `set_dropout_masks` called outside
training mode with a positive dropout probability sets both mask
fields to the deterministic scalar keep probability `1 - dropout`,
repeated for the 4 gates rather than sampled; with a zero dropout
probability it sets both to the scalar 1 in either mode. -/
theorem C6_inference_mask_policy (cell : LSTMCell) (b : ℕ) (rng : Rng) :
    (cell.training = false → 0 < cell.dropout →
        (cell.set_dropout_masks b rng).input_dropout_mask
            = some (.scalars (List.replicate 4 (1 - cell.dropout))) ∧
        (cell.set_dropout_masks b rng).h_dropout_mask
            = some (.scalars (List.replicate 4 (1 - cell.dropout)))) ∧
    (cell.dropout = 0 →
        (cell.set_dropout_masks b rng).input_dropout_mask
            = some (.scalars (List.replicate 4 1)) ∧
        (cell.set_dropout_masks b rng).h_dropout_mask
            = some (.scalars (List.replicate 4 1))) := by
  constructor
  · intro ht hd
    simp [LSTMCell.set_dropout_masks, ht, hd.ne']
  · intro hd
    simp [LSTMCell.set_dropout_masks, hd]

/-- Witness for C6 at a concrete inference-mode cell with dropout 1/2:
both masks become the scalar list of four copies of 1/2. -/
theorem C6_witness :
    c6Cell.training = false ∧ 0 < c6Cell.dropout ∧
    (c6Cell.set_dropout_masks 3 rng0).input_dropout_mask
        = some (.scalars (List.replicate 4 (1 - c6Cell.dropout))) := by
  refine ⟨rfl, by norm_num [c6Cell, LSTMCell.init], ?_⟩
  exact ((C6_inference_mask_policy c6Cell 3 rng0).1 rfl
    (by norm_num [c6Cell, LSTMCell.init])).1

/-! ### C8 -/

/-- C8: a forward call on a packed input with no initial state behaves
exactly as if the all-zero hidden and cell tensors of shape
`num_directions × max_batch_size × hidden_size` had been passed, where
`max_batch_size` is the first (widest) active-batch count of the
packed metadata. -/
theorem C8_zero_initial_state (l : LSTM) (rng : Rng) (σ τ : ℚ → ℚ)
    (p : PackedSeq) :
    l.forward rng σ τ (.packed p) none =
      l.forward rng σ τ (.packed p)
        (some (List.replicate (if l.bidirectional then 2 else 1)
                 (List.replicate (p.batch_sizes.headD 0)
                    (List.replicate l.hidden_size (0 : ℚ))),
               List.replicate (if l.bidirectional then 2 else 1)
                 (List.replicate (p.batch_sizes.headD 0)
                    (List.replicate l.hidden_size (0 : ℚ))))) := rfl

/-! ### C9 -/

/-- With a zero dropout probability, `set_dropout_masks` never
consults the sampler: its result is the same for any two samplers. -/
theorem set_dropout_masks_rng_irrel (cell : LSTMCell) (b : ℕ) (r1 r2 : Rng)
    (hd : cell.dropout = 0) :
    cell.set_dropout_masks b r1 = cell.set_dropout_masks b r2 := by
  simp [LSTMCell.set_dropout_masks, hd]

/-- Every branch of `set_dropout_masks` populates the input-side mask
field. -/
theorem set_dropout_masks_isSome (cell : LSTMCell) (b : ℕ) (r : Rng) :
    (cell.set_dropout_masks b r).input_dropout_mask.isSome = true := by
  simp only [LSTMCell.set_dropout_masks]
  split
  · split <;> rfl
  · rfl

/-- Once the mask fields are populated, `LSTMCell.forward` never
consults the sampler. -/
theorem cell_forward_rng_irrel (cell : LSTMCell) (r1 r2 : Rng) (σ τ : ℚ → ℚ)
    (x : Mat) (hcs : Mat × Mat)
    (hm : cell.input_dropout_mask.isSome = true) :
    cell.forward r1 σ τ x hcs = cell.forward r2 σ τ x hcs := by
  rcases Option.isSome_iff_exists.mp hm with ⟨m, hmm⟩
  simp [LSTMCell.forward, hmm]

/-- C9: two forward calls in inference mode with dropout probability 0,
identical inputs, identical initial state and identical weights
produce identical packed outputs and identical final states — the only
nondeterminism in the layer is the mask sampler, and with dropout 0 it
is never consulted, so the result does not depend on it. -/
theorem C9_inference_determinism (l : LSTM) (r1 r2 : Rng) (σ τ : ℚ → ℚ)
    (input : LSTMInput) (hs : Option (List Mat × List Mat))
    (htr : l.cell.training = false)
    (htr2 : ∀ c, l.cell_reverse = some c → c.training = false)
    (hd : l.cell.dropout = 0)
    (hd2 : ∀ c, l.cell_reverse = some c → c.dropout = 0) :
    l.forward r1 σ τ input hs = l.forward r2 σ τ input hs := by
  have hstep : ∀ c : LSTMCell, c.input_dropout_mask.isSome = true →
      (fun (x : Mat) (hcs : Mat × Mat) => (c.forward r1 σ τ x hcs).1)
        = (fun (x : Mat) (hcs : Mat × Mat) => (c.forward r2 σ τ x hcs).1) := by
    intro c hc
    funext x hcs
    rw [cell_forward_rng_irrel c r1 r2 σ τ x hcs hc]
  cases input with
  | unpacked t => rfl
  | packed p =>
    simp only [LSTM.forward, Except.ok.injEq]
    simp only [LSTM.forwardPacked]
    rw [set_dropout_masks_rng_irrel l.cell _ r1 r2 hd]
    rw [hstep _ (set_dropout_masks_isSome _ _ _)]
    cases hmr : l.cell_reverse with
    | none =>
      simp only [hmr, Option.map_none', Option.getD_none]
      rw [hstep _ (set_dropout_masks_isSome _ _ _)]
    | some cR =>
      simp only [hmr, Option.map_some', Option.getD_some]
      rw [set_dropout_masks_rng_irrel cR _ r1 r2 (hd2 cR hmr)]
      rw [hstep _ (set_dropout_masks_isSome _ _ _)]

/-- Witness for C9 at a concrete layer, packed input and samplers: the
layer built with dropout 0 in inference mode gives the same result
under two different samplers. -/
theorem C9_witness :
    c9Layer.cell.training = false ∧
    (∀ c, c9Layer.cell_reverse = some c → c.training = false) ∧
    c9Layer.cell.dropout = 0 ∧
    (∀ c, c9Layer.cell_reverse = some c → c.dropout = 0) ∧
    c9Layer.forward rng0 id id (.packed ⟨[[1]], [1]⟩) none =
      c9Layer.forward (fun p _ b f => [[[p]], [[p]], [[p]], [[p]]]) id id
        (.packed ⟨[[1]], [1]⟩) none := by
  refine ⟨rfl, ?_, rfl, ?_, ?_⟩
  · intro c hc; exact absurd hc (by simp [c9Layer, LSTM.init])
  · intro c hc; exact absurd hc (by simp [c9Layer, LSTM.init])
  · exact C9_inference_determinism c9Layer rng0
      (fun p _ b f => [[[p]], [[p]], [[p]], [[p]]]) id id
      (.packed ⟨[[1]], [1]⟩) none rfl
      (fun c hc => absurd hc (by simp [c9Layer, LSTM.init]))
      rfl (fun c hc => absurd hc (by simp [c9Layer, LSTM.init]))

/-! ### C10 -/

/-- C10: a direct `LSTMCell.forward` call made while the mask fields
are still `None` never fails: the cell first populates its masks
itself with `set_dropout_masks(input.size(0))` — sized to this step's
batch, not to the full batch's maximum width — and then behaves
exactly like the step of the refreshed cell, which it also returns. -/
theorem C10_lazy_mask_initialization (cell : LSTMCell) (rng : Rng)
    (σ τ : ℚ → ℚ) (input : Mat) (hs : Mat × Mat)
    (hnone : cell.input_dropout_mask = none) :
    cell.forward rng σ τ input hs =
      (lstmStep (cell.set_dropout_masks input.length rng) σ τ input hs,
       cell.set_dropout_masks input.length rng) := by
  simp [LSTMCell.forward, hnone]

/-- Witness for C10: a freshly constructed training-mode cell has
`None` masks, and a direct step on a 1-row input lazily refreshes at
batch size 1. -/
theorem C10_witness :
    c10Cell.input_dropout_mask = none ∧
    c10Cell.forward rng0 id id [[1]] ([[1]], [[1]]) =
      (lstmStep (c10Cell.set_dropout_masks 1 rng0) id id [[1]] ([[1]], [[1]]),
       c10Cell.set_dropout_masks 1 rng0) :=
  ⟨rfl, C10_lazy_mask_initialization c10Cell rng0 id id [[1]] ([[1]], [[1]]) rfl⟩

/-! ### C7: shape lemmas for the stepping protocol -/

theorem mem_zipWith {α β γ : Type} {f : α → β → γ} :
    ∀ {l1 : List α} {l2 : List β} {c : γ}, c ∈ List.zipWith f l1 l2 →
      ∃ a b, a ∈ l1 ∧ b ∈ l2 ∧ c = f a b := by
  intro l1
  induction l1 with
  | nil => intro l2 c h; simp at h
  | cons a l1 ih =>
    intro l2 c h
    cases l2 with
    | nil => simp at h
    | cons b l2 =>
      simp only [List.zipWith, List.mem_cons] at h
      rcases h with h | h
      · exact ⟨a, b, by simp, by simp, h⟩
      · obtain ⟨a2, b2, ha, hb, rfl⟩ := ih h
        exact ⟨a2, b2, by simp [ha], by simp [hb], rfl⟩

@[simp] theorem length_linear (x W : Mat) (bv : Vec) :
    (linear x W bv).length = x.length := by simp [linear]

@[simp] theorem length_linearNoBias (x W : Mat) :
    (linearNoBias x W).length = x.length := by simp [linearNoBias]

@[simp] theorem length_ewMul (a b : Mat) :
    (ewMul a b).length = min a.length b.length := by simp [ewMul]

@[simp] theorem length_ewAdd (a b : Mat) :
    (ewAdd a b).length = min a.length b.length := by simp [ewAdd]

@[simp] theorem length_ewMap (f : ℚ → ℚ) (a : Mat) :
    (ewMap f a).length = a.length := by simp [ewMap]

theorem rowsWidth_linear (x W : Mat) (bv : Vec) (H : ℕ)
    (hW : W.length = H) (hb : bv.length = H) :
    rowsWidth H (linear x W bv) := by
  intro r hr
  simp only [linear, List.mem_map] at hr
  obtain ⟨v, _, rfl⟩ := hr
  simp [matVec, hW, hb]

theorem rowsWidth_linearNoBias (x W : Mat) (H : ℕ) (hW : W.length = H) :
    rowsWidth H (linearNoBias x W) := by
  intro r hr
  simp only [linearNoBias, List.mem_map] at hr
  obtain ⟨v, _, rfl⟩ := hr
  simp [matVec, hW]

theorem rowsWidth_ewMul {H : ℕ} {a b : Mat}
    (ha : rowsWidth H a) (hb : rowsWidth H b) : rowsWidth H (ewMul a b) := by
  intro r hr
  obtain ⟨u, v, hu, hv, rfl⟩ := mem_zipWith hr
  simp [ha u hu, hb v hv]

theorem rowsWidth_ewAdd {H : ℕ} {a b : Mat}
    (ha : rowsWidth H a) (hb : rowsWidth H b) : rowsWidth H (ewAdd a b) := by
  intro r hr
  obtain ⟨u, v, hu, hv, rfl⟩ := mem_zipWith hr
  simp [ha u hu, hb v hv]

theorem rowsWidth_ewMap {H : ℕ} {f : ℚ → ℚ} {a : Mat}
    (ha : rowsWidth H a) : rowsWidth H (ewMap f a) := by
  intro r hr
  simp only [ewMap, List.mem_map] at hr
  obtain ⟨v, hv, rfl⟩ := hr
  simp [ha v hv]

theorem rowsWidth_take {H : ℕ} {a : Mat} (n : ℕ) (ha : rowsWidth H a) :
    rowsWidth H (a.take n) := fun r hr => ha r (List.take_subset n a hr)

theorem rowsWidth_append {H : ℕ} {a b : Mat}
    (ha : rowsWidth H a) (hb : rowsWidth H b) : rowsWidth H (a ++ b) := by
  intro r hr
  rcases List.mem_append.mp hr with h | h
  · exact ha r h
  · exact hb r h

theorem applyMask_slice_length (y : Mat) (m : DropoutMask) (g n B0 : ℕ)
    (hg : g < 4) (hm : maskBatchGE m B0) (hn : n ≤ B0) (hy : y.length = n) :
    (applyMask y (get_mask_slice m g n)).length = n := by
  cases m with
  | scalars vals => simpa [applyMask, get_mask_slice] using hy
  | tensor t =>
      have hgate : n ≤ (t.getD g []).length := le_trans hn (hm g hg)
      simp only [get_mask_slice, applyMask, length_ewMul, List.length_drop, hy]
      omega

theorem lstmStep_shape (cell : LSTMCell) (σ τ : ℚ → ℚ) (H B0 : ℕ)
    (hW : cell.weightsShaped H)
    (hmi : maskBatchGE
      (cell.input_dropout_mask.getD (.scalars (List.replicate 4 1))) B0)
    (hmh : maskBatchGE
      (cell.h_dropout_mask.getD (.scalars (List.replicate 4 1))) B0)
    (x h c : Mat) (hxB : x.length ≤ B0) (hxh : h.length = x.length)
    (hxc : c.length = x.length) (hcw : rowsWidth H c) :
    (lstmStep cell σ τ x (h, c)).1.length = x.length ∧
    (lstmStep cell σ τ x (h, c)).2.length = x.length ∧
    rowsWidth H (lstmStep cell σ τ x (h, c)).1 ∧
    rowsWidth H (lstmStep cell σ τ x (h, c)).2 := by
  obtain ⟨hWi, hUi, hbi, hWf, hUf, hbf, hWc, hUc, hbc, hWo, hUo, hbo⟩ := hW
  have hax : ∀ g, g < 4 → (applyMask x (get_mask_slice
      (cell.input_dropout_mask.getD (.scalars (List.replicate 4 1)))
      g x.length)).length = x.length :=
    fun g hg => applyMask_slice_length x _ g x.length B0 hg hmi hxB rfl
  have hah : ∀ g, g < 4 → (applyMask h (get_mask_slice
      (cell.h_dropout_mask.getD (.scalars (List.replicate 4 1)))
      g x.length)).length = x.length :=
    fun g hg => applyMask_slice_length h _ g x.length B0 hg hmh hxB hxh
  refine ⟨?_, ?_, ?_, ?_⟩
  · simp only [lstmStep, length_ewMul, length_ewMap, length_ewAdd, length_linear,
      length_linearNoBias, hax 0 (by norm_num), hax 1 (by norm_num),
      hax 2 (by norm_num), hax 3 (by norm_num), hah 0 (by norm_num),
      hah 1 (by norm_num), hah 2 (by norm_num), hah 3 (by norm_num), hxc,
      min_self]
  · simp only [lstmStep, length_ewMul, length_ewMap, length_ewAdd, length_linear,
      length_linearNoBias, hax 0 (by norm_num), hax 1 (by norm_num),
      hax 2 (by norm_num), hax 3 (by norm_num), hah 0 (by norm_num),
      hah 1 (by norm_num), hah 2 (by norm_num), hah 3 (by norm_num), hxc,
      min_self]
  · simp only [lstmStep]
    exact rowsWidth_ewMul
      (rowsWidth_ewMap (rowsWidth_ewAdd (rowsWidth_linear _ _ _ _ hWo hbo)
        (rowsWidth_linearNoBias _ _ _ hUo)))
      (rowsWidth_ewMap (rowsWidth_ewAdd
        (rowsWidth_ewMul (rowsWidth_ewMap (rowsWidth_ewAdd
          (rowsWidth_linear _ _ _ _ hWf hbf)
          (rowsWidth_linearNoBias _ _ _ hUf))) hcw)
        (rowsWidth_ewMul (rowsWidth_ewMap (rowsWidth_ewAdd
          (rowsWidth_linear _ _ _ _ hWi hbi)
          (rowsWidth_linearNoBias _ _ _ hUi)))
          (rowsWidth_ewMap (rowsWidth_ewAdd
            (rowsWidth_linear _ _ _ _ hWc hbc)
            (rowsWidth_linearNoBias _ _ _ hUc))))))
  · simp only [lstmStep]
    exact rowsWidth_ewAdd
      (rowsWidth_ewMul (rowsWidth_ewMap (rowsWidth_ewAdd
        (rowsWidth_linear _ _ _ _ hWf hbf)
        (rowsWidth_linearNoBias _ _ _ hUf))) hcw)
      (rowsWidth_ewMul (rowsWidth_ewMap (rowsWidth_ewAdd
        (rowsWidth_linear _ _ _ _ hWi hbi)
        (rowsWidth_linearNoBias _ _ _ hUi)))
        (rowsWidth_ewMap (rowsWidth_ewAdd
          (rowsWidth_linear _ _ _ _ hWc hbc)
          (rowsWidth_linearNoBias _ _ _ hUc))))

theorem rng_gate_length (r : Rng) (hr : rngOK r) (pr : ℚ) (b f g : ℕ)
    (hg : g < 4) : ((r pr 4 b f).getD g []).length = b := by
  obtain ⟨hlen, hmem⟩ := hr pr b f
  have hglt : g < (r pr 4 b f).length := by omega
  rw [List.getD_eq_get _ _ hglt]
  exact hmem _ (List.get_mem _ _ _)

theorem set_dropout_masks_weightsShaped (cell : LSTMCell) (b : ℕ) (r : Rng)
    (H : ℕ) (hW : cell.weightsShaped H) :
    (cell.set_dropout_masks b r).weightsShaped H := by
  simp only [LSTMCell.set_dropout_masks]
  split
  · split <;> exact hW
  · exact hW

theorem set_dropout_masks_maskGE (cell : LSTMCell) (B : ℕ) (r : Rng)
    (hr : rngOK r) :
    maskBatchGE ((cell.set_dropout_masks B r).input_dropout_mask.getD
      (.scalars (List.replicate 4 1))) B ∧
    maskBatchGE ((cell.set_dropout_masks B r).h_dropout_mask.getD
      (.scalars (List.replicate 4 1))) B := by
  simp only [LSTMCell.set_dropout_masks]
  split
  · split
    · constructor
      · intro g hg
        exact (rng_gate_length r hr _ _ _ g hg).ge
      · intro g hg
        exact (rng_gate_length r hr _ _ _ g hg).ge
    · exact ⟨trivial, trivial⟩
  · exact ⟨trivial, trivial⟩

theorem forward_StepShape (cell : LSTMCell) (r : Rng) (σ τ : ℚ → ℚ)
    (H B0 : ℕ) (hW : cell.weightsShaped H)
    (hsome : cell.input_dropout_mask.isSome = true)
    (hmi : maskBatchGE
      (cell.input_dropout_mask.getD (.scalars (List.replicate 4 1))) B0)
    (hmh : maskBatchGE
      (cell.h_dropout_mask.getD (.scalars (List.replicate 4 1))) B0) :
    StepShape (fun x hcs => (cell.forward r σ τ x hcs).1) H B0 := by
  intro x h c hxB hxh hxc hcw
  rcases Option.isSome_iff_exists.mp hsome with ⟨m, hm⟩
  have hfwd : cell.forward r σ τ x (h, c) = (lstmStep cell σ τ x (h, c), cell) := by
    simp [LSTMCell.forward, hm]
  simp only [hfwd]
  exact lstmStep_shape cell σ τ H B0 hW hmi hmh x h c hxB hxh hxc hcw

theorem chain_ge_bound :
    ∀ (a : ℕ) (bs : List ℕ), List.Chain' (fun x y => y ≤ x) (a :: bs) →
      ∀ b ∈ bs, b ≤ a := by
  intro a bs
  induction bs generalizing a with
  | nil => intro _ b hb; simp at hb
  | cons y rest ih =>
    intro hchain b hb
    rw [List.chain'_cons] at hchain
    rcases List.mem_cons.mp hb with rfl | hb
    · exact hchain.1
    · exact le_trans (ih y hchain.2 b hb) hchain.1

theorem varRecGo_outputs_shape (step : Mat → Mat × Mat → Mat × Mat)
    (H B0 : ℕ) (hstep : StepShape step H B0) :
    ∀ (bs : List ℕ) (data : Mat) (lastB : ℕ) (h c : Mat),
      List.Chain' (fun a b => b ≤ a) (lastB :: bs) →
      lastB ≤ B0 → bs.sum ≤ data.length →
      h.length = lastB → c.length = lastB → rowsWidth H c →
      (varRecGo step bs data lastB (h, c)).2.map List.length = bs ∧
      ∀ m ∈ (varRecGo step bs data lastB (h, c)).2, rowsWidth H m := by
  intro bs
  induction bs with
  | nil =>
    intro data lastB h c _ _ _ _ _ _
    exact ⟨rfl, by intro m hm; simp [varRecGo] at hm⟩
  | cons b bs ih =>
    intro data lastB h c hchain hB0 hdata hh hc hcw
    have hble : b ≤ lastB := (List.chain'_cons.mp hchain).1
    have hchain2 : List.Chain' (fun a b => b ≤ a) (b :: bs) :=
      (List.chain'_cons.mp hchain).2
    have hbdata : b ≤ data.length := by
      simp only [List.sum_cons] at hdata; omega
    have hxlen : (data.take b).length = b := by
      simp only [List.length_take]; omega
    by_cases hdec : 0 < lastB - b
    · have h2len : (h.take (h.length - (lastB - b))).length = b := by
        rw [hh]; simp only [List.length_take]; omega
      have c2len : (c.take (c.length - (lastB - b))).length = b := by
        rw [hc]; simp only [List.length_take]; omega
      have hs := hstep (data.take b)
        (h.take (h.length - (lastB - b))) (c.take (c.length - (lastB - b)))
        (by rw [hxlen]; exact le_trans hble hB0)
        (by rw [hxlen, h2len]) (by rw [hxlen, c2len])
        (rowsWidth_take _ hcw)
      rw [hxlen] at hs
      have hrest := ih (data.drop b) b
        (step (data.take b)
          (h.take (h.length - (lastB - b)), c.take (c.length - (lastB - b)))).1
        (step (data.take b)
          (h.take (h.length - (lastB - b)), c.take (c.length - (lastB - b)))).2
        hchain2 (le_trans hble hB0)
        (by simp only [List.length_drop, List.sum_cons] at hdata ⊢; omega)
        hs.1 hs.2.1 hs.2.2.2
      simp only [varRecGo, if_pos hdec]
      constructor
      · simp only [List.map_cons, hrest.1, hs.1]
      · intro m hm
        rcases List.mem_cons.mp hm with rfl | hm
        · exact hs.2.2.1
        · exact hrest.2 m hm
    · have hbeq : b = lastB := by omega
      have hs := hstep (data.take b) h c
        (by rw [hxlen]; exact le_trans hble hB0)
        (by rw [hxlen, hh, hbeq]) (by rw [hxlen, hc, hbeq]) hcw
      rw [hxlen] at hs
      have hrest := ih (data.drop b) b
        (step (data.take b) (h, c)).1 (step (data.take b) (h, c)).2
        hchain2 (le_trans hble hB0)
        (by simp only [List.length_drop, List.sum_cons] at hdata ⊢; omega)
        hs.1 hs.2.1 hs.2.2.2
      simp only [varRecGo, if_neg hdec]
      constructor
      · simp only [List.map_cons, hrest.1, hs.1]
      · intro m hm
        rcases List.mem_cons.mp hm with rfl | hm
        · exact hs.2.2.1
        · exact hrest.2 m hm

theorem rowsWidth_drop {H : ℕ} {a : Mat} (n : ℕ) (ha : rowsWidth H a) :
    rowsWidth H (a.drop n) := fun r hr => ha r (List.drop_subset n a hr)

theorem splitChunks_map_length :
    ∀ (bs : List ℕ) (data : Mat), bs.sum ≤ data.length →
      (splitChunks bs data).map List.length = bs := by
  intro bs
  induction bs with
  | nil => intro data _; rfl
  | cons b rest ih =>
    intro data h
    simp only [List.sum_cons] at h
    simp only [splitChunks, List.map_cons, List.length_take]
    rw [min_eq_left (show b ≤ data.length by omega),
      ih (data.drop b) (by simp only [List.length_drop]; omega)]

theorem chain_cons_headD (R : ℕ → ℕ → Prop) (hrefl : ∀ a, R a a)
    (bs : List ℕ) (h : List.Chain' R bs) :
    List.Chain' R (bs.headD 0 :: bs) := by
  cases bs with
  | nil => simp
  | cons b rest => exact List.chain'_cons.mpr ⟨hrefl b, h⟩

theorem varRecRevGo_outputs_shape (step : Mat → Mat × Mat → Mat × Mat)
    (H B0 : ℕ) (hstep : StepShape step H B0)
    (initH initC : Mat) (hiH : initH.length = B0) (hiC : initC.length = B0)
    (hiCw : rowsWidth H initC) :
    ∀ (bs : List ℕ) (chunks : List Mat) (lastB : ℕ) (h c : Mat),
      List.Chain' (fun a b => a ≤ b) (lastB :: bs) →
      (∀ b ∈ bs, b ≤ B0) →
      chunks.map List.length = bs →
      h.length = lastB → c.length = lastB → rowsWidth H c →
      (varRecRevGo step initH initC bs chunks lastB (h, c)).2.map List.length
          = bs.reverse ∧
      ∀ m ∈ (varRecRevGo step initH initC bs chunks lastB (h, c)).2,
        rowsWidth H m := by
  intro bs
  induction bs with
  | nil =>
    intro chunks lastB h c _ _ _ _ _ _
    exact ⟨rfl, by intro m hm; simp [varRecRevGo] at hm⟩
  | cons b bs ih =>
    intro chunks lastB h c hchain hball hchunks hh hc hcw
    have hlble : lastB ≤ b := (List.chain'_cons.mp hchain).1
    have hchain2 : List.Chain' (fun a b => a ≤ b) (b :: bs) :=
      (List.chain'_cons.mp hchain).2
    have hbB0 : b ≤ B0 := hball b (List.mem_cons_self _ _)
    cases chunks with
    | nil => simp at hchunks
    | cons ch chrest =>
      simp only [List.map_cons, List.cons.injEq] at hchunks
      obtain ⟨hchlen, hchrest⟩ := hchunks
      have hheadD : (ch :: chrest).headD [] = ch := rfl
      by_cases hinc : 0 < b - lastB
      · have h2len : (h ++ (initH.drop lastB).take (b - lastB)).length = b := by
          simp only [List.length_append, List.length_take, List.length_drop, hh, hiH]
          omega
        have c2len : (c ++ (initC.drop lastB).take (b - lastB)).length = b := by
          simp only [List.length_append, List.length_take, List.length_drop, hc, hiC]
          omega
        have hs := hstep ch
          (h ++ (initH.drop lastB).take (b - lastB))
          (c ++ (initC.drop lastB).take (b - lastB))
          (by rw [hchlen]; exact hbB0)
          (by rw [hchlen, h2len]) (by rw [hchlen, c2len])
          (rowsWidth_append hcw (rowsWidth_take _ (rowsWidth_drop _ hiCw)))
        rw [hchlen] at hs
        have hrest := ih chrest b
          (step ch (h ++ (initH.drop lastB).take (b - lastB),
                    c ++ (initC.drop lastB).take (b - lastB))).1
          (step ch (h ++ (initH.drop lastB).take (b - lastB),
                    c ++ (initC.drop lastB).take (b - lastB))).2
          hchain2 (fun x hx => hball x (List.mem_cons_of_mem _ hx))
          hchrest hs.1 hs.2.1 hs.2.2.2
        simp only [varRecRevGo, if_pos hinc, hheadD, List.tail_cons,
          List.reverse_cons]
        constructor
        · simp only [List.map_append, hrest.1, List.map_cons, List.map_nil, hs.1]
        · intro m hm
          rcases List.mem_append.mp hm with hm | hm
          · exact hrest.2 m hm
          · rcases List.mem_cons.mp hm with rfl | hm
            · exact hs.2.2.1
            · simp at hm
      · have hbeq : b = lastB := by omega
        have hs := hstep ch h c
          (by rw [hchlen]; exact hbB0)
          (by rw [hchlen, hh, hbeq]) (by rw [hchlen, hc, hbeq]) hcw
        rw [hchlen] at hs
        have hrest := ih chrest b
          (step ch (h, c)).1 (step ch (h, c)).2
          hchain2 (fun x hx => hball x (List.mem_cons_of_mem _ hx))
          hchrest hs.1 hs.2.1 hs.2.2.2
        simp only [varRecRevGo, if_neg hinc, hheadD, List.tail_cons,
          List.reverse_cons]
        constructor
        · simp only [List.map_append, hrest.1, List.map_cons, List.map_nil, hs.1]
        · intro m hm
          rcases List.mem_append.mp hm with hm | hm
          · exact hrest.2 m hm
          · rcases List.mem_cons.mp hm with rfl | hm
            · exact hs.2.2.1
            · simp at hm

theorem VariableRecurrent_output_shape (step : Mat → Mat × Mat → Mat × Mat)
    (H : ℕ) (bs : List ℕ) (data h c : Mat)
    (hstep : StepShape step H (bs.headD 0))
    (hchain : List.Chain' (fun a b => b ≤ a) bs)
    (hdata : bs.sum ≤ data.length)
    (hh : h.length = bs.headD 0) (hc : c.length = bs.headD 0)
    (hcw : rowsWidth H c) :
    (VariableRecurrent step bs data (h, c)).2.length = bs.sum ∧
    rowsWidth H (VariableRecurrent step bs data (h, c)).2 := by
  have hchain0 : List.Chain' (fun a b => b ≤ a) (bs.headD 0 :: bs) :=
    chain_cons_headD (fun a b => b ≤ a) (fun a => le_rfl) bs hchain
  have hmain := varRecGo_outputs_shape step H (bs.headD 0) hstep bs data
    (bs.headD 0) h c hchain0 le_rfl hdata hh hc hcw
  constructor
  · simp only [VariableRecurrent]
    rw [List.length_flatten, hmain.1]
  · intro r hr
    simp only [VariableRecurrent] at hr
    rw [List.mem_flatten] at hr
    obtain ⟨m, hm, hrm⟩ := hr
    exact hmain.2 m hm r hrm

theorem VariableRecurrentReverse_output_shape
    (step : Mat → Mat × Mat → Mat × Mat)
    (H : ℕ) (bs : List ℕ) (data h c : Mat)
    (hstep : StepShape step H (bs.headD 0))
    (hchain : List.Chain' (fun a b => b ≤ a) bs)
    (hdata : bs.sum ≤ data.length)
    (hh : h.length = bs.headD 0) (hc : c.length = bs.headD 0)
    (hcw : rowsWidth H c) :
    (VariableRecurrentReverse step bs data (h, c)).2.length = bs.sum ∧
    rowsWidth H (VariableRecurrentReverse step bs data (h, c)).2 := by
  have hchain0 : List.Chain' (fun a b => b ≤ a) (bs.headD 0 :: bs) :=
    chain_cons_headD (fun a b => b ≤ a) (fun a => le_rfl) bs hchain
  have hball : ∀ b ∈ bs.reverse, b ≤ bs.headD 0 := by
    intro b hb
    exact chain_ge_bound _ _ hchain0 b (List.mem_reverse.mp hb)
  have hrchain : List.Chain' (fun a b => a ≤ b) bs.reverse := by
    rw [List.chain'_reverse]
    exact hchain
  have hrchain0 : List.Chain' (fun a b => a ≤ b)
      (bs.reverse.headD 0 :: bs.reverse) :=
    chain_cons_headD (fun a b => a ≤ b) (fun a => le_rfl) bs.reverse hrchain
  have hlastB : bs.reverse.headD 0 ≤ bs.headD 0 := by
    cases hrv : bs.reverse with
    | nil => simp
    | cons r rest =>
      exact hball r (by rw [hrv]; exact List.mem_cons_self _ _)
  have htake_h : (h.take (bs.reverse.headD 0)).length = bs.reverse.headD 0 := by
    simp only [List.length_take, hh]; omega
  have htake_c : (c.take (bs.reverse.headD 0)).length = bs.reverse.headD 0 := by
    simp only [List.length_take, hc]; omega
  have hchunks : ((splitChunks bs data).reverse).map List.length = bs.reverse := by
    rw [List.map_reverse, splitChunks_map_length bs data hdata]
  have hmain := varRecRevGo_outputs_shape step H (bs.headD 0) hstep h c hh hc hcw
    bs.reverse ((splitChunks bs data).reverse) (bs.reverse.headD 0)
    (h.take (bs.reverse.headD 0)) (c.take (bs.reverse.headD 0))
    hrchain0 hball hchunks htake_h htake_c (rowsWidth_take _ hcw)
  constructor
  · simp only [VariableRecurrentReverse]
    rw [List.length_flatten, hmain.1, List.reverse_reverse]
  · intro r hr
    simp only [VariableRecurrentReverse] at hr
    rw [List.mem_flatten] at hr
    obtain ⟨m, hm, hrm⟩ := hr
    exact hmain.2 m hm r hrm

theorem zeroState_stateOK (B0 H nd : ℕ) (hnd : nd = 1 ∨ nd = 2) :
    stateOK B0 H nd
      (List.replicate nd (List.replicate B0 (List.replicate H (0 : ℚ))),
       List.replicate nd (List.replicate B0 (List.replicate H (0 : ℚ)))) := by
  have hw : rowsWidth H (List.replicate B0 (List.replicate H (0 : ℚ))) := by
    intro r hr
    rw [List.eq_of_mem_replicate hr]
    exact List.length_replicate _ _
  rcases hnd with rfl | rfl
  · exact ⟨by simp, by simp, by simpa using hw, fun h => absurd h (by omega)⟩
  · exact ⟨by simp, by simp, by simpa using hw,
      fun _ => ⟨by simp, by simp, by simpa using hw⟩⟩

/-- C7: every successful forward call on a packed input returns a
packed output carrying the original per-step active-batch counts, with
one output row per input row, and every output row has feature width
`hidden_size` when unidirectional and `2 * hidden_size` when
bidirectional.  The hypotheses are the call's shape preconditions:
well-formed packed metadata, a shape-correct sampler, weight matrices
and biases of the configured hidden size, and (when given) an initial
state of matching shape. -/
theorem C7_output_contract (l : LSTM) (rng : Rng) (σ τ : ℚ → ℚ)
    (p : PackedSeq) (hs : Option (List Mat × List Mat))
    (out : PackedSeq) (fin : List Mat × List Mat) (l2 : LSTM)
    (hwf : p.wf) (hrng : rngOK rng)
    (hcW : l.cell.weightsShaped l.hidden_size)
    (hcRW : ∀ c, l.cell_reverse = some c → c.weightsShaped l.hidden_size)
    (hstate : ∀ s, hs = some s →
      stateOK (p.batch_sizes.headD 0) l.hidden_size
        (if l.bidirectional then 2 else 1) s)
    (hok : l.forward rng σ τ (.packed p) hs = .ok ((out, fin), l2)) :
    out.batch_sizes = p.batch_sizes ∧
    out.data.length = p.batch_sizes.sum ∧
    rowsWidth ((if l.bidirectional then 2 else 1) * l.hidden_size) out.data := by
  obtain ⟨hsum, hchain⟩ := hwf
  have hfp0 : l.forwardPacked rng σ τ p hs = ((out, fin), l2) := by
    simpa [LSTM.forward] using hok
  have hfp : (l.forwardPacked rng σ τ p hs).1.1 = out := by rw [hfp0]
  rw [← hfp]
  cases hbid : l.bidirectional with
  | false =>
    simp only [LSTM.forwardPacked, hbid, Bool.false_eq_true, if_false]
    set cellA := l.cell.set_dropout_masks (p.batch_sizes.headD 0) rng
      with hcellAdef
    set z := List.replicate 1 (List.replicate (p.batch_sizes.headD 0)
      (List.replicate l.hidden_size (0 : ℚ))) with hzdef
    set hc0 := hs.getD (z, z) with hc0def
    have hstate0 : stateOK (p.batch_sizes.headD 0) l.hidden_size 1 hc0 := by
      rw [hc0def]
      cases hhs : hs with
      | none => rw [hzdef]; exact zeroState_stateOK _ _ _ (Or.inl rfl)
      | some s => simpa [hbid] using hstate s hhs
    have hstepF : StepShape (fun x hcs => (cellA.forward rng σ τ x hcs).1)
        l.hidden_size (p.batch_sizes.headD 0) := by
      rw [hcellAdef]
      exact forward_StepShape _ rng σ τ _ _
        (set_dropout_masks_weightsShaped _ _ _ _ hcW)
        (set_dropout_masks_isSome _ _ _)
        (set_dropout_masks_maskGE l.cell _ rng hrng).1
        (set_dropout_masks_maskGE l.cell _ rng hrng).2
    have hF := VariableRecurrent_output_shape
      (fun x hcs => (cellA.forward rng σ τ x hcs).1)
      l.hidden_size p.batch_sizes p.data
      (hc0.1.headD []) (hc0.2.headD []) hstepF hchain hsum
      hstate0.1 hstate0.2.1 hstate0.2.2.1
    refine ⟨by trivial, hF.1, ?_⟩
    simpa using hF.2
  | true =>
    simp only [LSTM.forwardPacked, hbid, if_true]
    set cellA := l.cell.set_dropout_masks (p.batch_sizes.headD 0) rng
      with hcellAdef
    set cellR := (l.cell_reverse.map
      (fun c => c.set_dropout_masks (p.batch_sizes.headD 0) rng)).getD cellA
      with hcellRdef
    set z := List.replicate 2 (List.replicate (p.batch_sizes.headD 0)
      (List.replicate l.hidden_size (0 : ℚ))) with hzdef
    set hc0 := hs.getD (z, z) with hc0def
    have hstate0 : stateOK (p.batch_sizes.headD 0) l.hidden_size 2 hc0 := by
      rw [hc0def]
      cases hhs : hs with
      | none => rw [hzdef]; exact zeroState_stateOK _ _ _ (Or.inr rfl)
      | some s => simpa [hbid] using hstate s hhs
    have hrev := hstate0.2.2.2 rfl
    have hstepF : StepShape (fun x hcs => (cellA.forward rng σ τ x hcs).1)
        l.hidden_size (p.batch_sizes.headD 0) := by
      rw [hcellAdef]
      exact forward_StepShape _ rng σ τ _ _
        (set_dropout_masks_weightsShaped _ _ _ _ hcW)
        (set_dropout_masks_isSome _ _ _)
        (set_dropout_masks_maskGE l.cell _ rng hrng).1
        (set_dropout_masks_maskGE l.cell _ rng hrng).2
    have hstepR : StepShape (fun x hcs => (cellR.forward rng σ τ x hcs).1)
        l.hidden_size (p.batch_sizes.headD 0) := by
      rw [hcellRdef]
      cases hmr : l.cell_reverse with
      | none =>
        rw [hcellAdef]
        simp only [Option.map_none', Option.getD_none]
        exact forward_StepShape _ rng σ τ _ _
          (set_dropout_masks_weightsShaped _ _ _ _ hcW)
          (set_dropout_masks_isSome _ _ _)
          (set_dropout_masks_maskGE l.cell _ rng hrng).1
          (set_dropout_masks_maskGE l.cell _ rng hrng).2
      | some c =>
        simp only [Option.map_some', Option.getD_some]
        exact forward_StepShape _ rng σ τ _ _
          (set_dropout_masks_weightsShaped _ _ _ _ (hcRW c hmr))
          (set_dropout_masks_isSome _ _ _)
          (set_dropout_masks_maskGE c _ rng hrng).1
          (set_dropout_masks_maskGE c _ rng hrng).2
    have hF := VariableRecurrent_output_shape
      (fun x hcs => (cellA.forward rng σ τ x hcs).1)
      l.hidden_size p.batch_sizes p.data
      (hc0.1.headD []) (hc0.2.headD []) hstepF hchain hsum
      hstate0.1 hstate0.2.1 hstate0.2.2.1
    have hR := VariableRecurrentReverse_output_shape
      (fun x hcs => (cellR.forward rng σ τ x hcs).1)
      l.hidden_size p.batch_sizes p.data
      (hc0.1.getD 1 []) (hc0.2.getD 1 []) hstepR hchain hsum
      hrev.1 hrev.2.1 hrev.2.2
    refine ⟨by trivial, ?_, ?_⟩
    · simp only [List.length_zipWith, hF.1, hR.1, min_self]
    · intro r hr
      obtain ⟨r1, r2, h1, h2, rfl⟩ := mem_zipWith hr
      rw [List.length_append, hF.2 r1 h1, hR.2 r2 h2, two_mul]

/-- Witness for C7: a 1×1 unidirectional layer on a one-step packed
batch of one sequence; the output carries the original count list
`[1]`, one output row, and feature width `1 = hidden_size`. -/
theorem C7_witness :
    (⟨[[1]], [1]⟩ : PackedSeq).wf ∧
    rngOK rngConst ∧
    c7Layer.cell.weightsShaped c7Layer.hidden_size ∧
    (c7Layer.forwardPacked rngConst id id ⟨[[1]], [1]⟩ none).1.1.batch_sizes
        = [1] ∧
    (c7Layer.forwardPacked rngConst id id ⟨[[1]], [1]⟩ none).1.1.data.length
        = 1 ∧
    rowsWidth 1 (c7Layer.forwardPacked rngConst id id ⟨[[1]], [1]⟩ none).1.1.data := by
  have hwf : (⟨[[1]], [1]⟩ : PackedSeq).wf := by
    constructor
    · simp
    · simp
  have hrng : rngOK rngConst := by
    intro pr b f
    constructor
    · simp [rngConst]
    · intro m hm
      rw [List.eq_of_mem_replicate hm]
      exact List.length_replicate _ _
  have hcW : c7Layer.cell.weightsShaped c7Layer.hidden_size := by
    exact ⟨rfl, rfl, rfl, rfl, rfl, rfl, rfl, rfl, rfl, rfl, rfl, rfl⟩
  have h := C7_output_contract c7Layer rngConst id id ⟨[[1]], [1]⟩ none
    (c7Layer.forwardPacked rngConst id id ⟨[[1]], [1]⟩ none).1.1
    (c7Layer.forwardPacked rngConst id id ⟨[[1]], [1]⟩ none).1.2
    (c7Layer.forwardPacked rngConst id id ⟨[[1]], [1]⟩ none).2
    hwf hrng hcW
    (fun c hc => absurd hc (by simp [c7Layer, LSTM.init]))
    (fun s hsome => absurd hsome (by simp))
    rfl
  exact ⟨hwf, hrng, hcW, h.1, h.2.1, by simpa using h.2.2⟩

end Components
